import Mathlib

/-!
Shallow embedding of the dreye Signal / MeasuredSpectrum calibration core
(src/dreye/core/signal.py, src/dreye/core/spectral_measurement.py).

Numbers are modelled as rationals (exact arithmetic; the Python code uses
floats, but every claim here is about control flow, caching, bounds checks
and piecewise-linear algebra, none of which depend on rounding).  Fallible
code paths are modelled with Except.  Unit algebra is an external capability
(spec section 1); units are opaque tags (Nat) and conversion is modelled only
for matching tags, which is the only case the theorems below exercise.
-/

/-- Errors raised by the embedded code paths.  Each constructor corresponds
to a concrete Python exception site. -/
inductive Err where
  /-- DreyeError raised by the domain-minimum guard in Signal.call. -/
  | domainMinErr : Err
  /-- DreyeError raised by the domain-maximum guard in Signal.call. -/
  | domainMaxErr : Err
  /-- ValueError raised by numpy or scipy (empty reduction, interp1d
  out-of-range query, take-along-axis dimension mismatch). -/
  | valueError : Err
  /-- DreyeError raised for a shape mismatch in the values setter. -/
  | shapeErr : Err
  /-- unit conversion between distinct unit tags (outside the modelled
  fragment of the unit capability). -/
  | unitConv : Err
  /-- AssertionError raised by the bounds assert in map. -/
  | boundsAssert : Err
  /-- AttributeError: numpy has no attribute named in the source typo
  inside the descending branch of the single-mapper construction. -/
  | attrError : Err
  /-- TypeError raised when assigning a Python None into a float array. -/
  | typeErr : Err
  /-- DreyeError raised by the label-coercion except-clause of the
  MeasuredSpectrum constructor. -/
  | dreyeLabels : Err
  /-- exception raised by a failing user-supplied dtype conversion. -/
  | convError : Err
  deriving DecidableEq, Repr

/-- Decidable equality for Except results, so that concrete runs of the
embedded code can be checked by evaluation. -/
instance {ε : Type u} {α : Type v} [DecidableEq ε] [DecidableEq α] :
    DecidableEq (Except ε α) := fun x y =>
  match x, y with
  | .ok a, .ok b =>
      if h : a = b then isTrue (congrArg Except.ok h)
      else isFalse (fun hc => h (Except.ok.inj hc))
  | .error a, .error b =>
      if h : a = b then isTrue (congrArg Except.error h)
      else isFalse (fun hc => h (Except.error.inj hc))
  | .ok _, .error _ => isFalse (fun hc => Except.noConfusion hc)
  | .error _, .ok _ => isFalse (fun hc => Except.noConfusion hc)

/-- Minimum of a list, as np.min: none on an empty array (ValueError). -/
def npMin : List ℚ → Option ℚ
  | [] => none
  | x :: xs => some (xs.foldl min x)

/-- Maximum of a list, as np.max: none on an empty array (ValueError). -/
def npMax : List ℚ → Option ℚ
  | [] => none
  | x :: xs => some (xs.foldl max x)

/-- Clipping of a single value to optional lower/upper bounds, as np.clip
with possibly-None bounds (Signal._clip_values applies np.clip unless both
bounds are None; clipping with a None bound passes that side through). -/
def clipQ (lo hi : Option ℚ) (x : ℚ) : ℚ :=
  let y := match lo with | none => x | some l => max l x
  match hi with | none => y | some h => min h y

/-- Trapezoidal integration of samples ys against coordinates xs, as
np.trapz(ys, xs) along the domain axis (Signal.integral). -/
def trapz : List ℚ → List ℚ → ℚ
  | x1 :: x2 :: xs, y1 :: y2 :: ys =>
      (x2 - x1) * (y1 + y2) / 2 + trapz (x2 :: xs) (y2 :: ys)
  | _, _ => 0

/-- Piecewise-linear interpolation of one query point, as the default
scipy.interpolate.interp1d interpolant with bounds_error=True: an error is
returned for queries outside the sample range and for fewer than two data
points. -/
def interp1dLin : List ℚ → List ℚ → ℚ → Except Err ℚ
  | x1 :: x2 :: xs, y1 :: y2 :: ys, q =>
      if q < x1 then .error .valueError
      else if q ≤ x2 then .ok (y1 + (y2 - y1) * (q - x1) / (x2 - x1))
      else interp1dLin (x2 :: xs) (y2 :: ys) q
  | _, _, _ => .error .valueError

/-- Interpolation of a list of query points (the vectorised interp1d call
made by Signal.interpolate on an array query). -/
def interpMany (xs ys : List ℚ) : List ℚ → Except Err (List ℚ)
  | [] => .ok []
  | q :: qs =>
      match interp1dLin xs ys q, interpMany xs ys qs with
      | .ok v, .ok vs => .ok (v :: vs)
      | .error e, _ => .error e
      | .ok _, .error e => .error e

/-- Domain capability as consumed by Signal (spec section 6): magnitude
array plus a unit tag. -/
structure DomainV where
  mag : List ℚ
  units : ℕ
  deriving DecidableEq, Repr

/-- State of a 1-D Signal: value array, owned domain, unit tag, optional
interpolation-range bounds (domain_min/domain_max, stored in domain units)
and optional scalar clip bounds (signal_min/signal_max). -/
structure SignalV where
  values : List ℚ
  domain : DomainV
  units : ℕ
  domainMin : Option ℚ
  domainMax : Option ℚ
  signalMin : Option ℚ
  signalMax : Option ℚ
  deriving DecidableEq, Repr

/-- Query argument of Signal.call: an AbstractDomain instance, a raw
coordinate array, or a scalar coordinate. -/
inductive CallInput where
  | dm : DomainV → CallInput
  | arr : List ℚ → CallInput
  | scalar : ℚ → CallInput
  deriving DecidableEq, Repr

/-- Coordinate list carried by a query (asarray(domain) in the source). -/
def CallInput.magList : CallInput → List ℚ
  | .dm d => d.mag
  | .arr xs => xs
  | .scalar x => [x]

/-- Array rank of the interpolation result produced by a query: a scalar
query collapses the domain axis (numpy 0-d result for a 1-D signal). -/
def CallInput.resNdim : CallInput → ℕ
  | .scalar _ => 0
  | _ => 1

/-- Result of Signal.call: either a bare unit-tagged quantity (scalar or
array) or a new Signal. -/
inductive CallRes where
  | quantScalar : ℚ → ℕ → CallRes
  | quantArr : List ℚ → ℕ → CallRes
  | signal : SignalV → CallRes
  deriving DecidableEq, Repr

/-- Resolution of the query into coordinates in the signal's domain units
together with the units remembered for the result domain (the source first
takes domain_units from an AbstractDomain query and converts the query to
the signal's own domain units; raw arrays and scalars are taken to already
be in domain units by convert_units).  Conversion between distinct unit
tags is outside the modelled unit fragment. -/
def SignalV.resolveQuery (s : SignalV) : CallInput → Except Err (List ℚ × ℕ)
  | .dm d =>
      if d.units = s.domain.units then .ok (d.mag, d.units)
      else .error .unitConv
  | .arr xs => .ok (xs, s.domain.units)
  | .scalar x => .ok ([x], s.domain.units)

/-- Lower half of the guard in Signal.call: with a configured domain_min,
raise when the query minimum lies strictly above it (source comment: the
query range must be bigger than the configured range); np.min of an empty
query raises ValueError. -/
def domainGuardLow (dmin : Option ℚ) (mags : List ℚ) : Except Err Unit :=
  match dmin with
  | none => .ok ()
  | some m =>
      match npMin mags with
      | none => .error .valueError
      | some mn => if mn > m then .error .domainMinErr else .ok ()

/-- Upper half of the guard in Signal.call: with a configured domain_max,
raise when the query maximum lies strictly below it. -/
def domainGuardHigh (dmax : Option ℚ) (mags : List ℚ) : Except Err Unit :=
  match dmax with
  | none => .ok ()
  | some m =>
      match npMax mags with
      | none => .error .valueError
      | some mx => if mx < m then .error .domainMaxErr else .ok ()

/-- Clipping stage of the interpolant wrapper (Signal.interpolate builds
clip_wrapper, which returns the raw interpolant output untouched when both
clip bounds are None and np.clip-s it otherwise). -/
def clipStage (s : SignalV) (raw : List ℚ) : List ℚ :=
  match s.signalMin, s.signalMax with
  | none, none => raw
  | lo, hi => raw.map (clipQ lo hi)

/-- Signal.call (signal.py lines 480-516): resolve the query, run the
domain_min/domain_max guard, interpolate through the freshly built clipped
interpolant, and either return a bare quantity (rank reduced or single
domain sample) or a new Signal carrying the interpolated values and a new
Domain built from the query coordinates. -/
def SignalV.call (s : SignalV) (inp : CallInput) : Except Err CallRes :=
  match s.resolveQuery inp with
  | .error e => .error e
  | .ok (mags, domUnits) =>
    match domainGuardLow s.domainMin mags with
    | .error e => .error e
    | .ok _ =>
      match domainGuardHigh s.domainMax mags with
      | .error e => .error e
      | .ok _ =>
        match interpMany s.domain.mag s.values mags with
        | .error e => .error e
        | .ok raw =>
          let vals := clipStage s raw
          if inp.resNdim < 1 then .ok (.quantScalar (vals.headD 0) s.units)
          else if vals.length = 1 then .ok (.quantArr vals s.units)
          else .ok (.signal { s with values := vals, domain := ⟨mags, domUnits⟩ })

/-- Signal equality (signal.py __eq__): same concrete class (both sides are
plain signals here), equal units, equal domains, element-wise equal
magnitudes. -/
def SignalV.eqSig (a b : SignalV) : Prop :=
  a.units = b.units ∧ a.domain = b.domain ∧ a.values = b.values

/-- Discriminator for the two shapes of Signal.call results: a bare
unit-tagged quantity versus a new Signal. -/
def CallRes.isQuant : CallRes → Bool
  | .signal _ => false
  | _ => true

/-- Cache-carrying view of a Signal for the interpolant-invalidation claim:
interpCache models the _interpolate attribute, holding the (domain, values)
snapshot the interpolant closure was built from (the closure captures the
interp1d instance; clip bounds are read live at call time). -/
structure CSig where
  domain : List ℚ
  values : List ℚ
  signalMin : Option ℚ
  signalMax : Option ℚ
  interpCache : Option (List ℚ × List ℚ)
  deriving DecidableEq, Repr

/-- Snapshot the interpolate property would serve: the existing cache if
present, otherwise a fresh build from the current domain and values. -/
def CSig.cacheAfterAccess (s : CSig) : List ℚ × List ℚ :=
  match s.interpCache with
  | some c => c
  | none => (s.domain, s.values)

/-- Access of the interpolate property followed by evaluation at one query
point (signal.py lines 353-376): lazily builds and stores the interpolant
from the state at build time, evaluates it and clips the output with the
live signal_min/signal_max. -/
def CSig.interpolateEval (s : CSig) (q : ℚ) : CSig × Except Err ℚ :=
  let c := s.cacheAfterAccess
  ({ s with interpCache := some c },
    (interp1dLin c.1 c.2 q).map (fun v =>
      match s.signalMin, s.signalMax with
      | none, none => v
      | lo, hi => clipQ lo hi v))

/-- Values setter (signal.py lines 287-294): unit conversion of a raw array
is the identity, the new array must have the same shape, and the _values
attribute is replaced.  The source setter does NOT reset the _interpolate
cache. -/
def CSig.setValues (s : CSig) (v : List ℚ) : Except Err CSig :=
  if v.length = s.values.length then .ok { s with values := v }
  else .error .shapeErr

/-- Interpolator setter (signal.py lines 315-326) for contrast: it does
reset the _interpolate cache to None. -/
def CSig.setInterpolator (s : CSig) : CSig :=
  { s with interpCache := none }

/-- Conversion callables a dtype can stand for: the identity (float dtype on
rational data), integer truncation, or a callable whose conversion raises. -/
inductive ConvKind where
  | idconv : ConvKind
  | truncInt : ConvKind
  | failing : ConvKind
  deriving DecidableEq, Repr

/-- Application of a dtype conversion callable to the value array. -/
def ConvKind.apply : ConvKind → List ℚ → Except Err (List ℚ)
  | .idconv, v => .ok v
  | .truncInt, v => .ok (v.map (fun q => ((if 0 ≤ q then ⌊q⌋ else -⌊-q⌋ : ℤ) : ℚ)))
  | .failing, _ => .error .convError

/-- Dtype tag held by a Signal or its Domain. -/
inductive DtypeTag where
  | float64 : DtypeTag
  | ofConv : ConvKind → DtypeTag
  deriving DecidableEq, Repr

/-- Argument given to the dtype setter: a dtype string (normalised through
np.dtype to a callable), a plain callable, or a non-callable value. -/
inductive DtypeArg where
  | strArg : ConvKind → DtypeArg
  | callableArg : ConvKind → DtypeArg
  | notCallable : DtypeArg
  deriving DecidableEq, Repr

/-- Observable receiver state for the dtype-setter claim: value array, own
dtype tag, and the owned domain's dtype tag. -/
structure DSig where
  values : List ℚ
  dtype : DtypeTag
  domainDtype : DtypeTag
  deriving DecidableEq, Repr

/-- Dtype setter (signal.py lines 251-268), with in-place mutation made
explicit: a non-callable argument raises before any mutation; otherwise
_dtype and the domain's dtype are assigned first and the value conversion
runs last, so a raising conversion propagates with the receiver already
mutated.  The error branch carries the receiver state at the raise site. -/
def DSig.dtypeSetter (s : DSig) (v : DtypeArg) : Except (DSig × Err) DSig :=
  match v with
  | .notCallable => .error (s, .attrError)
  | .strArg k | .callableArg k =>
      let s2 : DSig := { s with dtype := .ofConv k, domainDtype := .ofConv k }
      match k.apply s2.values with
      | .ok v2 => .ok { s2 with values := v2 }
      | .error e => .error (s2, e)

/-- Two-dimensional Signal view for the normalisation claim: a shared
domain and one value row per channel (channel-major layout of the value
array; unit algebra stays in the opaque capability and is not tracked). -/
structure Signal2 where
  domain : List ℚ
  channels : List (List ℚ)
  units : ℕ
  deriving DecidableEq, Repr

/-- Signal.integral (signal.py lines 518-528): trapezoidal integration of
each channel against the domain magnitudes. -/
def Signal2.integral (s : Signal2) : List ℚ :=
  s.channels.map (trapz s.domain)

/-- Signal.normalized_signal (signal.py lines 530-536): the signal divided
by its own integral broadcast across the other axis, i.e. every channel
divided elementwise by that channel's integral. -/
def Signal2.normalized_signal (s : Signal2) : Signal2 :=
  { s with channels :=
      s.channels.map (fun ch => ch.map (fun v => v / trapz s.domain ch)) }

/-- Possibly-NaN float, to distinguish a Python None (absent value) from a
float nan inside boundary arrays. -/
inductive PyFloat where
  | fin : ℚ → PyFloat
  | nan : PyFloat
  deriving DecidableEq, Repr

/-- MeasuredSpectrum as the calibration engine consumes it: spectral domain
magnitudes, ascending control-input settings (the label Domain), one
measured spectrum row per setting, and the calibration metadata stored in
attrs by the constructor. -/
structure MSpec where
  wavelengths : List ℚ
  inputs : List ℚ
  values : List (List ℚ)
  zero_is_lower : Bool
  zero_boundary : Option PyFloat
  max_boundary : Option PyFloat
  label_units : ℕ
  deriving DecidableEq, Repr

/-- Entry of MeasuredSpectraContainer.intensities_list for one channel: the
per-setting integral of the measured spectrum (a 1-D Signal over the label
Domain). -/
def MSpec.intensity (ms : MSpec) : List ℚ :=
  ms.values.map (trapz ms.wavelengths)

/-- MeasuredSpectraContainer.bounds (spectral_measurement.py lines
441-456): per channel the min and max of the intensity samples, then the
lower bound forced to 0 for channels whose zero boundary is not nan.  The
mask is np.isnan of the per-channel zero-boundary array; when any channel's
zero boundary is Python None, that array has object dtype and np.isnan
raises TypeError. -/
def containerBounds (cont : List MSpec) : Except Err (List (ℚ × ℚ)) :=
  if cont.any (fun ms => ms.intensity.isEmpty) then .error .valueError
  else if cont.any (fun ms => ms.zero_boundary.isNone) then .error .typeErr
  else .ok (cont.map (fun ms =>
    let lo := (npMin ms.intensity).getD 0
    let hi := (npMax ms.intensity).getD 0
    match ms.zero_boundary with
    | some (.fin _) => (0, hi)
    | _ => (lo, hi)))

/-- MeasuredSpectraContainer.lower_boundary (spectral_measurement.py lines
465-477): start from zeros, assign the zero boundary where zero_is_lower
and the max boundary elsewhere (assigning a Python None into the float
array raises TypeError), then replace nan entries by starts (the lowest
tested setting, labels.start). -/
def boundaryListLow (cont : List MSpec) : List ℚ :=
  cont.map (fun ms =>
    match (if ms.zero_is_lower then ms.zero_boundary else ms.max_boundary) with
    | some (.fin q) => q
    | _ => ms.inputs.headD 0)

def lowerBoundary (cont : List MSpec) : Except Err (List ℚ) :=
  if cont.any (fun ms => ms.zero_is_lower && ms.zero_boundary.isNone) then
    .error .typeErr
  else if cont.any (fun ms => !ms.zero_is_lower && ms.max_boundary.isNone) then
    .error .typeErr
  else .ok (boundaryListLow cont)

/-- MeasuredSpectraContainer.upper_boundary (spectral_measurement.py lines
479-491): the mirror image, with the roles of the two boundaries inverted
and nan entries replaced by ends (the highest tested setting,
labels.end). -/
def boundaryListHigh (cont : List MSpec) : List ℚ :=
  cont.map (fun ms =>
    match (if ms.zero_is_lower then ms.max_boundary else ms.zero_boundary) with
    | some (.fin q) => q
    | _ => ms.inputs.getLastD 0)

def upperBoundary (cont : List MSpec) : Except Err (List ℚ) :=
  if cont.any (fun ms => !ms.zero_is_lower && ms.zero_boundary.isNone) then
    .error .typeErr
  else if cont.any (fun ms => ms.zero_is_lower && ms.max_boundary.isNone) then
    .error .typeErr
  else .ok (boundaryListHigh cont)

/-- MeasuredSpectraContainer.label_units (spectral_measurement.py lines
302-312): the shared input units; raises when channels disagree. -/
def containerLabelUnits (cont : List MSpec) : Except Err ℕ :=
  match cont with
  | [] => .error .valueError
  | c :: rest =>
      if rest.all (fun ms => ms.label_units = c.label_units) then .ok c.label_units
      else .error .unitConv

/-- Sample-by-channel or single-sample argument of map. -/
inductive MapInput where
  | one : List ℚ → MapInput
  | two : List (List ℚ) → MapInput
  deriving DecidableEq, Repr

/-- np.atleast_2d on a map argument. -/
def MapInput.atleast2d : MapInput → List (List ℚ)
  | .one xs => [xs]
  | .two xss => xss

/-- Whether the map argument was a single 1-D sample (map then strips the
leading axis from the result). -/
def MapInput.isOne : MapInput → Bool
  | .one _ => true
  | .two _ => false

/-- Check of one sample row against the per-channel bounds, as the
broadcast comparisons of _pre_mapping (values >= bounds[0] and
values <= bounds[1], elementwise per channel). -/
def withinBoundsRow (bds : List (ℚ × ℚ)) (row : List ℚ) : Bool :=
  (row.zip bds).all (fun p => decide (p.2.1 ≤ p.1) && decide (p.1 ≤ p.2.2))

/-- Output of map: mapped control-input values in the input's shape plus
the optionally attached unit tag. -/
structure MapOutput where
  out : List (List ℚ)
  oneDim : Bool
  units : Option ℕ
  deriving DecidableEq, Repr

/-- Value map produces on the happy path: the cached per-channel mappers
applied columnwise to the (validated) intensity values, the mapped control
inputs clipped per channel to the lower/upper boundary, no units
attached. -/
def mappedOutput (cont : List MSpec) (mappers : List (ℚ → ℚ))
    (values : MapInput) : MapOutput :=
  ⟨(values.atleast2d.map (fun row => (mappers.zip row).map (fun p => p.1 p.2))).map
      (fun row =>
        (row.zip ((boundaryListLow cont).zip (boundaryListHigh cont))).map
          (fun p => clipQ (some p.2.1) (some p.2.2) p.1)),
    values.isOne, none⟩

/-- MeasuredSpectraContainer.map (spectral_measurement.py lines 223-241
with _pre_mapping lines 331-344, _mapper_func lines 243-257 and
_post_mapping lines 314-329): unit-convert the argument (identity on raw
magnitudes), assert every value is within the per-channel achievable
intensity bounds, apply the cached per-channel mappers columnwise, clip the
mapped control inputs to the per-channel lower/upper boundary and attach
the shared label units when requested.  The cached self._mapper list (one
isotonic-regression inverse per channel, an external capability) is the
mappers argument. -/
def mapModel (cont : List MSpec) (mappers : List (ℚ → ℚ)) (values : MapInput)
    (useUnits : Bool) : Except Err MapOutput :=
  match containerBounds cont with
  | .error e => .error e
  | .ok bds =>
      let v2 := values.atleast2d
      if ¬ (v2.all (withinBoundsRow bds)) then .error .boundsAssert
      else
        let y := v2.map (fun row => (mappers.zip row).map (fun p => p.1 p.2))
        match lowerBoundary cont, upperBoundary cont with
        | .error e, _ => .error e
        | .ok _, .error e => .error e
        | .ok lb, .ok ub =>
            let clipped := y.map (fun row =>
              (row.zip (lb.zip ub)).map (fun p => clipQ (some p.2.1) (some p.2.2) p.1))
            if useUnits then
              match containerLabelUnits cont with
              | .error e => .error e
              | .ok u => .ok ⟨clipped, values.isOne, some u⟩
            else .ok ⟨clipped, values.isOne, none⟩

/-- MeasuredSpectraContainer._get_single_mapper, splice step
(spectral_measurement.py lines 259-283): the (control-input, intensity)
sample arrays handed to the isotonic regression.  With a defined zero
boundary strictly below the observed minimum and zero_is_lower, the pair
(zero_boundary, 0) is prepended; in the descending case with the zero
boundary strictly above the observed maximum, the x array is extended and
then the misspelled np.concateante raises AttributeError, so the y
extension never happens and the whole call fails.  A nan zero boundary
compares false on both sides and is never spliced. -/
def getSingleMapperArrays (ms : MSpec) : Except Err (List ℚ × List ℚ) :=
  let y := ms.intensity
  let x := ms.inputs
  match ms.zero_boundary with
  | none => .ok (x, y)
  | some .nan => .ok (x, y)
  | some (.fin q) =>
      if ms.zero_is_lower then
        match npMin x with
        | none => .error .valueError
        | some mn => if q < mn then .ok (q :: x, 0 :: y) else .ok (x, y)
      else
        match npMax x with
        | none => .error .valueError
        | some mx => if mx < q then .error .attrError else .ok (x, y)

/-- Stable insertion of index i into an index list ordered by the keyed
values, for argsort. -/
def argsortInsert (xs : List ℚ) (i : ℕ) : List ℕ → List ℕ
  | [] => [i]
  | j :: rest =>
      if xs.getD j 0 ≤ xs.getD i 0 then j :: argsortInsert xs i rest
      else i :: j :: rest

/-- np.argsort of a 1-D array: the permutation of indices sorting the
values ascending. -/
def argsort (xs : List ℚ) : List ℕ :=
  (List.range xs.length).foldl (fun acc i => argsortInsert xs i acc) []

/-- Check all(np.diff(sorted_idcs) == 1) used to decide whether the labels
were already sorted. -/
def diffsAllOne : List ℕ → Bool
  | a :: b :: r => decide (b = a + 1) && diffsAllOne (b :: r)
  | _ => true

/-- np.take_along_axis on a 2-D array with the given index-array rank:
numpy requires the indices to have the same number of dimensions as the
array and raises ValueError otherwise; with matching rank (a 2-D index
array) it gathers along the requested axis. -/
def npTakeAlongAxis (arr : List (List ℚ)) (idcsNdim : ℕ) (idcs : List ℕ)
    (axis : ℕ) : Except Err (List (List ℚ)) :=
  if idcsNdim ≠ 2 then .error .valueError
  else if axis = 1 then .ok (arr.map (fun row => idcs.map (fun i => row.getD i 0)))
  else .ok (idcs.map (fun i => (arr.getD i []).map id))

/-- Label-coercion step of MeasuredSpectrum.init for generic (non-Domain)
labels (spectral_measurement.py lines 109-132): argsort the labels, build
the ascending Domain, and if the labels were not already sorted reorder the
value array with np.take_along_axis along the other axis.  The whole block
sits in a try whose except-clause re-raises any failure as the DreyeError
about labels; the take_along_axis call passes the 1-D argsort result
against the 2-D magnitude array. -/
def msInitCoerceLabels (values : List (List ℚ)) (labels : List ℚ) :
    Except Err (List (List ℚ) × List ℚ) :=
  let sortedIdcs := argsort labels
  let dom := sortedIdcs.map (fun i => labels.getD i 0)
  if diffsAllOne sortedIdcs then .ok (values, dom)
  else
    match npTakeAlongAxis values 1 sortedIdcs 1 with
    | .ok v => .ok (v, dom)
    | .error _ => .error .dreyeLabels

/-! Concrete instances used by the claim theorems, their counterexamples
and their witnesses. -/

/-- Channel with ascending polarity whose zero boundary (-1) lies below the
lowest tested setting 0: per-setting intensities are 0, 2, 4, 4. -/
def msAsc : MSpec :=
  ⟨[0, 2], [0, 1, 2, 3], [[0, 0], [1, 1], [2, 2], [2, 2]],
    true, some (.fin (-1)), some (.fin 3), 0⟩

/-- Channel with descending polarity whose zero boundary (5) lies above the
highest tested setting 3 (the case hitting the np.concateante typo). -/
def msDesc : MSpec :=
  ⟨[0, 2], [0, 1, 2, 3], [[0, 0], [1, 1], [2, 2], [2, 2]],
    false, some (.fin 5), some (.fin 0), 0⟩

/-- Ascending channel with both boundaries defined (zero at 1, max at 9). -/
def chDefA : MSpec := ⟨[0, 2], [0, 5], [[1, 1], [1, 1]], true, some (.fin 1), some (.fin 9), 0⟩

/-- Descending channel with both boundaries defined (zero at 8, max at 2). -/
def chDefB : MSpec := ⟨[0, 2], [0, 5], [[1, 1], [1, 1]], false, some (.fin 8), some (.fin 2), 0⟩

/-- Ascending channel whose zero boundary is a float nan (the only case the
isnan fallback can reach). -/
def chNan : MSpec := ⟨[0, 2], [0, 5], [[1, 1], [1, 1]], true, some .nan, some (.fin 9), 0⟩

/-- Ascending channel whose zero boundary is undefined (Python None). -/
def chNone : MSpec := ⟨[0, 2], [0, 5], [[1, 1], [1, 1]], true, none, none, 0⟩

/-- Signal with domain 1..3 and a configured domain_min of 0 strictly below
the domain start. -/
def sigGuard : SignalV := ⟨[1, 1, 1], ⟨[1, 2, 3], 0⟩, 0, some 0, none, none, none⟩

/-- Signal whose configured domain_min/domain_max coincide with its domain
ends, so the coverage guard passes on its own domain. -/
def sigRound : SignalV := ⟨[5, 6, 7], ⟨[1, 2, 3], 0⟩, 0, some 1, some 3, none, none⟩

/-- Unbounded signal on domain 0..2 for the call-result-shape witness. -/
def sigShape : SignalV := ⟨[0, 1, 2], ⟨[0, 1, 2], 0⟩, 0, none, none, none, none⟩

/-- Two-channel signal for the normalisation witness (integrals 1 and 2). -/
def sig2W : Signal2 := ⟨[0, 1], [[1, 1], [2, 2]], 0⟩

/-- Cache-free signal state for the stale-interpolant scenario. -/
def cs0 : CSig := ⟨[0, 1], [0, 0], none, none, none⟩

/-- Receiver state for the dtype-setter scenario. -/
def dsW : DSig := ⟨[1], .float64, .float64⟩

/-! Helper lemmas about the numeric primitives. -/

theorem foldl_min_eq_self {x : ℚ} {xs : List ℚ} (h : ∀ a ∈ xs, x ≤ a) :
    xs.foldl min x = x := by
  induction xs generalizing x with
  | nil => rfl
  | cons a t ih =>
      have hxa : x ≤ a := h a (by simp)
      simp only [List.foldl_cons, min_eq_left hxa]
      exact ih (fun b hb => h b (by simp [hb]))

theorem npMin_chain {x : ℚ} {xs : List ℚ}
    (h : List.Chain' (· < ·) (x :: xs)) : npMin (x :: xs) = some x := by
  have hp := List.chain'_iff_pairwise.mp h
  have hx := (List.pairwise_cons.mp hp).1
  simp [npMin, foldl_min_eq_self (fun a ha => le_of_lt (hx a ha))]

theorem npMax_chain {x : ℚ} {xs : List ℚ}
    (h : List.Chain' (· < ·) (x :: xs)) :
    npMax (x :: xs) = (x :: xs).getLast? := by
  induction xs generalizing x with
  | nil => rfl
  | cons a t ih =>
      obtain ⟨hxa, hc⟩ := List.chain'_cons.mp h
      have := ih hc
      simp only [npMax, List.foldl_cons, max_eq_right (le_of_lt hxa),
        List.getLast?_cons_cons]
      simpa [npMax] using this

theorem interp1dLin_at_node (xs : List ℚ) :
    ∀ (ys : List ℚ), List.Chain' (· < ·) xs → ys.length = xs.length →
      2 ≤ xs.length → ∀ (i : ℕ) (hi : i < xs.length) (hiy : i < ys.length),
      interp1dLin xs ys (xs.get ⟨i, hi⟩) = Except.ok (ys.get ⟨i, hiy⟩) := by
  induction xs with
  | nil => intro ys _ _ _ i hi _; exact absurd hi (by simp)
  | cons x1 t1 ih =>
      intro ys hc hlen h2 i hi hiy
      cases t1 with
      | nil => simp at h2
      | cons x2 xs' =>
          cases ys with
          | nil => simp at hlen
          | cons y1 ys1 =>
              cases ys1 with
              | nil => simp at hlen
              | cons y2 ys' =>
                  obtain ⟨hx12, hc2⟩ := List.chain'_cons.mp hc
                  have hne : x2 - x1 ≠ 0 := sub_ne_zero.mpr (ne_of_gt hx12)
                  match i with
                  | 0 =>
                      simp only [List.get, interp1dLin, lt_irrefl, if_false,
                        le_of_lt hx12, if_true, if_neg (lt_irrefl x1),
                        if_pos (le_of_lt hx12)]
                      congr 1
                      simp [sub_self]
                  | 1 =>
                      simp only [List.get, interp1dLin,
                        if_neg (not_lt.mpr (le_of_lt hx12)), if_pos (le_refl x2)]
                      congr 1
                      field_simp
                  | (k + 2) =>
                      have hp := List.chain'_iff_pairwise.mp hc
                      have hp2 := (List.pairwise_cons.mp hp).2
                      have hk : k < xs'.length := by
                        simp only [List.length_cons] at hi; omega
                      have hky : k < ys'.length := by
                        simp only [List.length_cons] at hiy; omega
                      have hq : (x1 :: x2 :: xs').get ⟨k + 2, hi⟩ = xs'.get ⟨k, hk⟩ := by
                        simp [List.get]
                      have hqmem : xs'.get ⟨k, hk⟩ ∈ xs' := List.get_mem xs' k hk
                      have hx2q : x2 < xs'.get ⟨k, hk⟩ :=
                        (List.pairwise_cons.mp hp2).1 _ hqmem
                      have hx1q : x1 < xs'.get ⟨k, hk⟩ :=
                        (List.pairwise_cons.mp hp).1 _ (by simp [hqmem])
                      rw [hq]
                      have hres : interp1dLin (x1 :: x2 :: xs') (y1 :: y2 :: ys')
                          (xs'.get ⟨k, hk⟩) =
                          interp1dLin (x2 :: xs') (y2 :: ys') (xs'.get ⟨k, hk⟩) := by
                        rw [interp1dLin]
                        rw [if_neg (not_lt.mpr (le_of_lt hx1q)),
                          if_neg (not_le.mpr hx2q)]
                      rw [hres]
                      have h2t : 2 ≤ (x2 :: xs').length := by
                        simp only [List.length_cons]; omega
                      have hlent : (y2 :: ys').length = (x2 :: xs').length := by
                        simp only [List.length_cons] at hlen ⊢; omega
                      have hik : k + 1 < (x2 :: xs').length := by
                        simp only [List.length_cons]; omega
                      have hiky : k + 1 < (y2 :: ys').length := by
                        simp only [List.length_cons]; omega
                      have := ih (y2 :: ys') hc2 hlent h2t (k + 1) hik hiky
                      simpa [List.get] using this

theorem interp1dLin_isOk (xs : List ℚ) :
    ∀ (ys : List ℚ), ys.length = xs.length → 2 ≤ xs.length → ∀ (q : ℚ),
      (∀ a ∈ xs.head?, a ≤ q) → (∀ a ∈ xs.getLast?, q ≤ a) →
      ∃ v, interp1dLin xs ys q = Except.ok v := by
  induction xs with
  | nil => intro ys _ h2 _ _ _; simp at h2
  | cons x1 t1 ih =>
      intro ys hlen h2 q hlo hhi
      cases t1 with
      | nil => simp at h2
      | cons x2 xs' =>
          cases ys with
          | nil => simp at hlen
          | cons y1 ys1 =>
              cases ys1 with
              | nil => simp at hlen
              | cons y2 ys' =>
                  have hx1q : x1 ≤ q := hlo x1 (by simp)
                  by_cases hq2 : q ≤ x2
                  · refine ⟨y1 + (y2 - y1) * (q - x1) / (x2 - x1), ?_⟩
                    rw [interp1dLin, if_neg (not_lt.mpr hx1q), if_pos hq2]
                  · cases xs' with
                    | nil =>
                        exact absurd (hhi x2 (by simp [List.getLast?])) hq2
                    | cons x3 t3 =>
                        have hstep : interp1dLin (x1 :: x2 :: x3 :: t3)
                            (y1 :: y2 :: ys') q =
                            interp1dLin (x2 :: x3 :: t3) (y2 :: ys') q := by
                          rw [interp1dLin, if_neg (not_lt.mpr hx1q), if_neg hq2]
                        rw [hstep]
                        refine ih (y2 :: ys') ?_ (by simp) q ?_ ?_
                        · simp only [List.length_cons] at hlen ⊢; omega
                        · intro a ha
                          simp only [List.head?] at ha
                          cases ha
                          exact le_of_lt (not_le.mp hq2)
                        · intro a ha
                          exact hhi a (by simpa [List.getLast?_cons_cons] using ha)

theorem interpMany_isOk (xs ys : List ℚ) (qs : List ℚ)
    (h : ∀ q ∈ qs, ∃ v, interp1dLin xs ys q = Except.ok v) :
    ∃ vs, interpMany xs ys qs = Except.ok vs ∧ vs.length = qs.length := by
  induction qs with
  | nil => exact ⟨[], rfl, rfl⟩
  | cons q t ih =>
      obtain ⟨v, hv⟩ := h q (by simp)
      obtain ⟨vs, hvs, hlen⟩ := ih (fun p hp => h p (by simp [hp]))
      refine ⟨v :: vs, ?_, by simp [hlen]⟩
      rw [interpMany, hv, hvs]

theorem interpMany_drop (xs ys : List ℚ) (hc : List.Chain' (· < ·) xs)
    (hlen : ys.length = xs.length) (h2 : 2 ≤ xs.length) :
    ∀ (q : List ℚ) (n : ℕ), q = xs.drop n → interpMany xs ys q = Except.ok (ys.drop n) := by
  intro q
  induction q with
  | nil =>
      intro n h
      have hn : xs.length ≤ n := by
        by_contra hcon
        push_neg at hcon
        have hd := List.drop_eq_getElem_cons hcon
        rw [← h] at hd
        simp at hd
        omega
      rw [List.drop_eq_nil_of_le (by omega)]
      rfl
  | cons a t iht =>
      intro n h
      have hn : n < xs.length := by
        by_contra hcon
        push_neg at hcon
        rw [List.drop_eq_nil_of_le hcon] at h
        simp at h
      have hny : n < ys.length := by omega
      have hx := List.drop_eq_getElem_cons hn
      rw [hx] at h
      have h1 : a = xs[n] := by
        injection h
      have h2' : t = xs.drop (n + 1) := by
        injection h
      have hnode := interp1dLin_at_node xs ys hc hlen h2 n hn hny
      simp only [List.get_eq_getElem] at hnode
      rw [interpMany, h1, hnode, iht (n + 1) h2',
        List.drop_eq_getElem_cons hny]

theorem interpMany_self (xs ys : List ℚ) (hc : List.Chain' (· < ·) xs)
    (hlen : ys.length = xs.length) (h2 : 2 ≤ xs.length) :
    interpMany xs ys xs = Except.ok ys := by
  have := interpMany_drop xs ys hc hlen h2 xs 0 (by simp)
  simpa using this

/-! Claim theorems. -/

/-- C3: the claim says that in both polarity cases the synthesized
(zero_boundary, 0) sample pair is spliced into the correct end of the
sorted arrays and the extended arrays are used.  The ascending case does
splice as claimed, but the descending case dies on the misspelled
np.concateante (an AttributeError) right after extending x, so the spec is
the intent and the code has a typo. -/
theorem c3_zero_splice_code_bug :
    getSingleMapperArrays msAsc = .ok ([-1, 0, 1, 2, 3], [0, 0, 2, 4, 4]) ∧
    getSingleMapperArrays msDesc = .error .attrError := by
  refine ⟨?_, ?_⟩ <;>
    norm_num [getSingleMapperArrays, msAsc, msDesc, MSpec.intensity, trapz,
      npMin, npMax, min_def, max_def]

/-- C4: the claim says the cached interpolant is invalidated when values
change.  After building the interpolant on values [0, 0] and assigning
[1, 2] through the values setter, evaluating interpolate at 1 still returns
0 (the stale interpolant built from the old values), while a fresh signal
with values [1, 2] returns 2: the values setter does not reset the
cache. -/
theorem c4_stale_interpolant_code_bug :
    (cs0.interpolateEval 1).1.setValues [1, 2] =
      .ok ⟨[0, 1], [1, 2], none, none, some ([0, 1], [0, 0])⟩ ∧
    ((⟨[0, 1], [1, 2], none, none, some ([0, 1], [0, 0])⟩ : CSig).interpolateEval 1).2 =
      .ok 0 ∧
    ((⟨[0, 1], [1, 2], none, none, none⟩ : CSig).interpolateEval 1).2 = .ok 2 ∧
    (0 : ℚ) ≠ 2 := by
  refine ⟨?_, ?_, ?_, ?_⟩ <;>
    norm_num [cs0, CSig.interpolateEval, CSig.cacheAfterAccess, CSig.setValues,
      interp1dLin, Except.map]

/-- C5: with both boundaries defined the boundary arithmetic matches the
claim (ascending channel: lower = zero boundary 1, upper = max boundary 9;
descending channel: lower = max boundary 2, upper = zero boundary 8), and a
nan boundary falls back to the lowest tested setting; but for a channel
whose zero boundary is undefined (Python None) the masked assignment
raises TypeError instead of falling back to the minimum tested setting, so
the claimed fallback is the intent and the None-to-nan replacement in the
source is a slip (its condition tests the element, not the boundary, for
None). -/
theorem c5_boundary_fallback_code_bug :
    lowerBoundary [chDefA, chDefB] = .ok [1, 2] ∧
    upperBoundary [chDefA, chDefB] = .ok [9, 8] ∧
    lowerBoundary [chNan] = .ok [0] ∧
    lowerBoundary [chNone] = .error .typeErr := by
  refine ⟨?_, ?_, ?_, ?_⟩ <;>
    norm_num [lowerBoundary, upperBoundary, boundaryListLow, boundaryListHigh,
      chDefA, chDefB, chNan, chNone]

/-- C9: the claim says unsorted generic labels are coerced into an
ascending Domain with the value array reordered.  The already-sorted case
passes through unchanged, but for unsorted labels the reorder calls
np.take_along_axis with the 1-D argsort result against the 2-D value
array, numpy raises ValueError for the rank mismatch, and the enclosing
except-clause turns it into the DreyeError about labels: construction
fails instead of sorting. -/
theorem c9_label_sort_code_bug :
    msInitCoerceLabels [[1, 2], [3, 4]] [0, 1] = .ok ([[1, 2], [3, 4]], [0, 1]) ∧
    msInitCoerceLabels [[1, 2], [3, 4]] [1, 0] = .error .dreyeLabels := by
  refine ⟨?_, ?_⟩ <;>
    norm_num [msInitCoerceLabels, argsort, argsortInsert, diffsAllOne,
      npTakeAlongAxis, List.range_succ]

/-- C2 counterexample: a signal with domain 1..3 and domain_min 0; the
query [1, 2] lies entirely inside the configured bounds, yet call raises
the domain error, because the source guard fires when the query minimum is
above domain_min, not when the query leaves the bounds. -/
theorem c2_guard_counterexample :
    SignalV.call sigGuard (.arr [1, 2]) = .error .domainMinErr ∧
    sigGuard.domainMin = some 0 ∧ sigGuard.domainMax = none ∧
    (∀ p ∈ [(1 : ℚ), 2], 0 ≤ p) := by
  refine ⟨?_, by norm_num [sigGuard], by norm_num [sigGuard], by norm_num⟩
  norm_num [SignalV.call, SignalV.resolveQuery, domainGuardLow, npMin, min_def,
    sigGuard]

/-- C6 counterexample: the same guard breaks the round trip; sigGuard
satisfies every hedge of the claim (three domain samples, no clip bounds,
default linear interpolator), yet calling it on its own domain raises
instead of reproducing the signal, because its domain_min 0 lies strictly
below the domain start 1. -/
theorem c6_roundtrip_counterexample :
    SignalV.call sigGuard (.dm sigGuard.domain) = .error .domainMinErr ∧
    sigGuard.signalMin = none ∧ sigGuard.signalMax = none ∧
    2 ≤ sigGuard.domain.mag.length := by
  refine ⟨?_, by norm_num [sigGuard], by norm_num [sigGuard], by norm_num [sigGuard]⟩
  norm_num [SignalV.call, SignalV.resolveQuery, domainGuardLow, npMin, min_def,
    sigGuard]

/-- C10 counterexample: a dtype assignment whose conversion callable
raises leaves the receiver visibly mutated (dtype and domain dtype already
reassigned), contradicting the claim that every failing operation leaves
the receiver unchanged. -/
theorem c10_atomicity_counterexample :
    dsW.dtypeSetter (.callableArg .failing) =
      .error (⟨[1], .ofConv .failing, .ofConv .failing⟩, .convError) ∧
    (⟨[1], .ofConv .failing, .ofConv .failing⟩ : DSig) ≠ dsW := by
  refine ⟨by norm_num [DSig.dtypeSetter, ConvKind.apply, dsW], ?_⟩
  norm_num [dsW]
  decide

/-- C10 amended: the dtype setter assigns the dtype and the domain's dtype
before converting the value array, so when the conversion raises, the
receiver is left with the new dtype tags and the original values (a
partial mutation); the raise happens before any mutation only for the
non-callable argument. -/
theorem c10_dtype_setter_partial_mutation (s : DSig) (k : ConvKind) (e : Err)
    (h : k.apply s.values = .error e) :
    s.dtypeSetter (.callableArg k) =
      .error ({ s with dtype := .ofConv k, domainDtype := .ofConv k }, e) := by
  simp [DSig.dtypeSetter, h]

/-- Witness for the amended dtype-setter theorem at a concrete failing
conversion. -/
theorem c10_dtype_setter_partial_mutation_witness :
    ConvKind.apply .failing dsW.values = .error .convError ∧
    dsW.dtypeSetter (.callableArg .failing) =
      .error ({ dsW with dtype := .ofConv .failing, domainDtype := .ofConv .failing },
        .convError) :=
  ⟨by norm_num [ConvKind.apply], c10_dtype_setter_partial_mutation dsW .failing .convError
    (by norm_num [ConvKind.apply])⟩

theorem trapz_map_div (xs : List ℚ) : ∀ (ys : List ℚ) (c : ℚ),
    trapz xs (ys.map (fun v => v / c)) = trapz xs ys / c := by
  induction xs with
  | nil => intro ys c; simp [trapz]
  | cons x1 t1 ih =>
      intro ys c
      cases t1 with
      | nil => simp [trapz]
      | cons x2 t2 =>
          cases ys with
          | nil => simp [trapz]
          | cons y1 ys1 =>
              cases ys1 with
              | nil => simp [trapz]
              | cons y2 yt =>
                  have hih := ih (y2 :: yt) c
                  simp only [List.map_cons] at hih ⊢
                  rw [trapz, trapz, hih]
                  ring

/-- C7: normalized_signal is the signal divided elementwise by its own
per-channel integral, and for every channel with non-zero integral the
integral of the normalized signal equals 1 (exactly, in rational
arithmetic). -/
theorem c7_normalized_integral_one (s : Signal2)
    (h : ∀ ch ∈ s.channels, trapz s.domain ch ≠ 0) :
    s.normalized_signal.channels =
      s.channels.map (fun ch => ch.map (fun v => v / trapz s.domain ch)) ∧
    ∀ r ∈ s.normalized_signal.integral, r = 1 := by
  refine ⟨rfl, ?_⟩
  intro r hr
  simp only [Signal2.normalized_signal, Signal2.integral, List.map_map,
    List.mem_map, Function.comp] at hr
  obtain ⟨ch, hch, hrr⟩ := hr
  rw [← hrr, trapz_map_div, div_self (h ch hch)]

/-- Witness for the normalisation theorem on a concrete two-channel signal
with integrals 1 and 2. -/
theorem c7_normalized_integral_one_witness :
    (∀ ch ∈ sig2W.channels, trapz sig2W.domain ch ≠ 0) ∧
    (sig2W.normalized_signal.channels =
       sig2W.channels.map (fun ch => ch.map (fun v => v / trapz sig2W.domain ch)) ∧
     ∀ r ∈ sig2W.normalized_signal.integral, r = 1) :=
  ⟨by norm_num [sig2W, trapz], c7_normalized_integral_one sig2W (by norm_num [sig2W, trapz])⟩

/-- C6 amended: resampling a Signal onto its own domain is the exact
identity (same units, same domain, same values, Signal equality) for
signals with at least two strictly ascending domain samples, no clip
bounds, and the default linear interpolator, provided additionally that a
configured domain_min does not lie strictly below the domain start and a
configured domain_max does not lie strictly above the domain end: the
source guard requires the query to cover the configured range, so a bound
strictly outside the domain makes the round trip raise instead. -/
theorem c6_roundtrip_identity (s : SignalV)
    (hch : List.Chain' (· < ·) s.domain.mag)
    (hlen : s.values.length = s.domain.mag.length)
    (h2 : 2 ≤ s.domain.mag.length)
    (hsmin : s.signalMin = none) (hsmax : s.signalMax = none)
    (hdmin : ∀ m ∈ s.domainMin, ∀ a ∈ s.domain.mag.head?, a ≤ m)
    (hdmax : ∀ m ∈ s.domainMax, ∀ a ∈ s.domain.mag.getLast?, m ≤ a) :
    ∃ t, s.call (.dm s.domain) = .ok (.signal t) ∧ t.eqSig s := by
  obtain ⟨x, xs, hmag⟩ : ∃ x xs, s.domain.mag = x :: xs := by
    cases hm : s.domain.mag with
    | nil => rw [hm] at h2; simp at h2
    | cons a l => exact ⟨a, l, rfl⟩
  have hres : s.resolveQuery (.dm s.domain) = .ok (s.domain.mag, s.domain.units) := by
    simp [SignalV.resolveQuery]
  have hchx : List.Chain' (· < ·) (x :: xs) := hmag ▸ hch
  have hgl : domainGuardLow s.domainMin s.domain.mag = .ok () := by
    cases hd : s.domainMin with
    | none => rfl
    | some m =>
        have hxm : x ≤ m := by
          have hin := hdmin m (by simp [hd])
          exact hin x (by rw [hmag]; rfl)
        rw [hmag]
        simp only [domainGuardLow, npMin_chain hchx]
        rw [if_neg (not_lt.mpr hxm)]
  have hgh : domainGuardHigh s.domainMax s.domain.mag = .ok () := by
    cases hd : s.domainMax with
    | none => rfl
    | some m =>
        have hl : (x :: xs).getLast? = some ((x :: xs).getLast (by simp)) :=
          List.getLast?_eq_getLast _ _
        have hml : m ≤ (x :: xs).getLast (by simp) := by
          have hin := hdmax m (by simp [hd])
          exact hin _ (by rw [hmag, hl]; rfl)
        rw [hmag]
        simp only [domainGuardHigh, npMax_chain hchx, hl]
        rw [if_neg (not_lt.mpr hml)]
  have hraw : interpMany s.domain.mag s.values s.domain.mag = .ok s.values :=
    interpMany_self _ _ hch hlen h2
  have hclip : clipStage s s.values = s.values := by
    simp [clipStage, hsmin, hsmax]
  have hne1 : ¬ (s.values.length = 1) := by omega
  refine ⟨{ s with values := s.values, domain := ⟨s.domain.mag, s.domain.units⟩ }, ?_, ?_⟩
  · simp only [SignalV.call, hres, hgl, hgh, hraw, hclip, CallInput.resNdim]
    rw [if_neg (by norm_num), if_neg hne1]
  · exact ⟨rfl, rfl, rfl⟩

/-- Witness for the amended round-trip theorem: a signal with domain
1..3, values 5..7 and configured bounds coinciding with the domain ends
resamples onto its own domain to an equal signal. -/
theorem c6_roundtrip_identity_witness :
    (2 ≤ sigRound.domain.mag.length) ∧
    ∃ t, sigRound.call (.dm sigRound.domain) = .ok (.signal t) ∧ t.eqSig sigRound :=
  ⟨by norm_num [sigRound],
    c6_roundtrip_identity sigRound
      (by norm_num [sigRound, List.chain'_cons])
      (by norm_num [sigRound]) (by norm_num [sigRound])
      (by norm_num [sigRound]) (by norm_num [sigRound])
      (by intro m hm a ha; norm_num [sigRound] at hm ha; rw [← hm, ← ha])
      (by
        intro m hm a ha
        norm_num [sigRound] at hm
        norm_num [sigRound, List.getLast?_cons_cons, List.getLast?_singleton] at ha
        rw [← hm, ← ha])⟩

/-- C2 amended: for a nonempty coordinate query that lies inside the data
domain (so the interpolation itself is defined), calling the Signal raises
exactly when the query fails to cover the configured bounds — when the
query minimum lies strictly above domain_min or the query maximum lies
strictly below domain_max.  This is the opposite of the claimed
extrapolation guard: a query strictly inside the configured bounds raises,
and a query covering them does not. -/
theorem c2_call_domain_guard (s : SignalV) (qs : List ℚ)
    (hne : qs ≠ [])
    (hlen : s.values.length = s.domain.mag.length)
    (h2 : 2 ≤ s.domain.mag.length)
    (hrange : ∀ p ∈ qs, (∀ a ∈ s.domain.mag.head?, a ≤ p) ∧
      (∀ a ∈ s.domain.mag.getLast?, p ≤ a)) :
    (∃ e, s.call (.arr qs) = .error e) ↔
      ((∃ m ∈ s.domainMin, ∃ mn ∈ npMin qs, m < mn) ∨
       (∃ M ∈ s.domainMax, ∃ mx ∈ npMax qs, mx < M)) := by
  have hres : s.resolveQuery (.arr qs) = .ok (qs, s.domain.units) := rfl
  obtain ⟨q0, qt, hqs⟩ : ∃ q0 qt, qs = q0 :: qt := by
    cases qs with
    | nil => exact absurd rfl hne
    | cons a l => exact ⟨a, l, rfl⟩
  have hmin : npMin qs = some (qt.foldl min q0) := by rw [hqs]; rfl
  have hmaxq : npMax qs = some (qt.foldl max q0) := by rw [hqs]; rfl
  by_cases hcl : ∃ m ∈ s.domainMin, ∃ mn ∈ npMin qs, m < mn
  · obtain ⟨m, hm, mn, hmn, hlt⟩ := hcl
    rw [Option.mem_def] at hm
    rw [hmin, Option.mem_def] at hmn
    have hgl : domainGuardLow s.domainMin qs = .error .domainMinErr := by
      simp only [domainGuardLow, hm, hmin]
      rw [if_pos (by rw [← Option.some_inj.mp hmn] at hlt; exact hlt)]
    refine iff_of_true ⟨.domainMinErr, ?_⟩ (Or.inl ⟨m, by simp [hm], mn, by simp [hmin, hmn], hlt⟩)
    simp only [SignalV.call, hres, hgl]
  · have hgl : domainGuardLow s.domainMin qs = .ok () := by
      cases hd : s.domainMin with
      | none => rfl
      | some m =>
          have hnl : ¬ m < qt.foldl min q0 := by
            intro hlt
            exact hcl ⟨m, by simp [hd], qt.foldl min q0, by simp [hmin], hlt⟩
          simp only [domainGuardLow, hmin]
          rw [if_neg hnl]
    by_cases hcm : ∃ M ∈ s.domainMax, ∃ mx ∈ npMax qs, mx < M
    · obtain ⟨M, hM, mx, hmx, hlt⟩ := hcm
      rw [Option.mem_def] at hM
      rw [hmaxq, Option.mem_def] at hmx
      have hgh : domainGuardHigh s.domainMax qs = .error .domainMaxErr := by
        simp only [domainGuardHigh, hM, hmaxq]
        rw [if_pos (by rw [← Option.some_inj.mp hmx] at hlt; exact hlt)]
      refine iff_of_true ⟨.domainMaxErr, ?_⟩
        (Or.inr ⟨M, by simp [hM], mx, by simp [hmaxq, hmx], hlt⟩)
      simp only [SignalV.call, hres, hgl, hgh]
    · have hgh : domainGuardHigh s.domainMax qs = .ok () := by
        cases hd : s.domainMax with
        | none => rfl
        | some M =>
            have hnl : ¬ qt.foldl max q0 < M := by
              intro hlt
              exact hcm ⟨M, by simp [hd], qt.foldl max q0, by simp [hmaxq], hlt⟩
            simp only [domainGuardHigh, hmaxq]
            rw [if_neg hnl]
      obtain ⟨raw, hraw, _⟩ := interpMany_isOk s.domain.mag s.values qs
        (fun p hp => interp1dLin_isOk s.domain.mag s.values hlen h2 p
          (hrange p hp).1 (hrange p hp).2)
      have hok : ∃ r, s.call (.arr qs) = .ok r := by
        simp only [SignalV.call, hres, hgl, hgh, hraw]
        split
        · exact ⟨_, rfl⟩
        · split
          · exact ⟨_, rfl⟩
          · exact ⟨_, rfl⟩
      refine iff_of_false ?_ (fun h => h.elim hcl hcm)
      rintro ⟨e, he⟩
      obtain ⟨r, hr⟩ := hok
      rw [he] at hr
      exact Except.noConfusion hr

/-- Witness for the amended guard theorem: for the signal with domain 1..3
and domain_min 0, the in-range query [1, 2] satisfies every hypothesis and
the equivalence instantiates to an actual raise (the query minimum 1 lies
strictly above the configured minimum 0). -/
theorem c2_call_domain_guard_witness :
    ([(1 : ℚ), 2] ≠ []) ∧
    ((∃ e, sigGuard.call (.arr [1, 2]) = .error e) ↔
      ((∃ m ∈ sigGuard.domainMin, ∃ mn ∈ npMin [1, 2], m < mn) ∨
       (∃ M ∈ sigGuard.domainMax, ∃ mx ∈ npMax [1, 2], mx < M))) :=
  ⟨by simp,
    c2_call_domain_guard sigGuard [1, 2] (by simp)
      (by norm_num [sigGuard]) (by norm_num [sigGuard])
      (by
        intro p hp
        norm_num [sigGuard] at hp ⊢
        rcases hp with rfl | rfl <;> norm_num)⟩

theorem interpMany_length (xs ys : List ℚ) :
    ∀ (qs vs : List ℚ), interpMany xs ys qs = Except.ok vs → vs.length = qs.length := by
  intro qs
  induction qs with
  | nil =>
      intro vs h
      simp only [interpMany] at h
      injection h with h
      rw [← h]
  | cons q qt ih =>
      intro vs h
      simp only [interpMany] at h
      cases h1 : interp1dLin xs ys q with
      | error e => rw [h1] at h; simp at h
      | ok v =>
          rw [h1] at h
          cases h2 : interpMany xs ys qt with
          | error e => rw [h2] at h; simp at h
          | ok vs2 =>
              rw [h2] at h
              injection h with h
              rw [← h]
              simp [ih vs2 h2]

theorem clipStage_length (s : SignalV) (raw : List ℚ) :
    (clipStage s raw).length = raw.length := by
  cases hm : s.signalMin <;> cases hx : s.signalMax <;> simp [clipStage, hm, hx]

theorem resolveQuery_ok (s : SignalV) (inp : CallInput) (mags : List ℚ) (du : ℕ)
    (h : s.resolveQuery inp = .ok (mags, du)) :
    mags = inp.magList ∧ du = s.domain.units := by
  cases inp with
  | dm d =>
      by_cases hu : d.units = s.domain.units
      · simp only [SignalV.resolveQuery, if_pos hu] at h
        injection h with h
        injection h with h1 h2
        exact ⟨h1.symm, h2.symm.trans hu⟩
      · simp only [SignalV.resolveQuery, if_neg hu] at h
        exact Except.noConfusion h
  | arr xs =>
      simp only [SignalV.resolveQuery] at h
      injection h with h
      injection h with h1 h2
      exact ⟨h1.symm, h2.symm⟩
  | scalar x =>
      simp only [SignalV.resolveQuery] at h
      injection h with h
      injection h with h1 h2
      exact ⟨h1.symm, h2.symm⟩

/-- C8: when call succeeds it returns a bare unit-tagged quantity exactly
when the interpolation result loses a rank (scalar query) or has a single
sample along the domain axis (the interpolated values have the query's
length, so this is the query length being 1); in every other case the
result is a new Signal whose values are the clipped interpolation output
and whose domain is a new Domain built from the query coordinates in the
signal's domain units. -/
theorem c8_call_result_shape (s : SignalV) (inp : CallInput) (r : CallRes)
    (h : s.call inp = .ok r) :
    (r.isQuant = true ↔ (inp.resNdim < 1 ∨ inp.magList.length = 1)) ∧
    (∀ t, r = .signal t →
      ∃ raw, interpMany s.domain.mag s.values inp.magList = .ok raw ∧
        t.values = clipStage s raw ∧
        t.domain = ⟨inp.magList, s.domain.units⟩ ∧
        t.units = s.units) := by
  cases hres : s.resolveQuery inp with
  | error e =>
      simp only [SignalV.call, hres] at h
      exact Except.noConfusion h
  | ok p =>
      obtain ⟨mags, du⟩ := p
      obtain ⟨hm, hd⟩ := resolveQuery_ok s inp mags du hres
      subst hm
      subst hd
      simp only [SignalV.call, hres] at h
      cases hgl : domainGuardLow s.domainMin inp.magList with
      | error e => simp only [hgl] at h; exact Except.noConfusion h
      | ok u =>
          cases u
          simp only [hgl] at h
          cases hgh : domainGuardHigh s.domainMax inp.magList with
          | error e => simp only [hgh] at h; exact Except.noConfusion h
          | ok u2 =>
              cases u2
              simp only [hgh] at h
              cases hraw : interpMany s.domain.mag s.values inp.magList with
              | error e => simp only [hraw] at h; exact Except.noConfusion h
              | ok raw =>
                  simp only [hraw] at h
                  have hrl : raw.length = inp.magList.length :=
                    interpMany_length _ _ _ _ hraw
                  by_cases hn : inp.resNdim < 1
                  · rw [if_pos hn] at h
                    injection h with h
                    refine ⟨?_, ?_⟩
                    · rw [← h]
                      simp [CallRes.isQuant, hn]
                    · intro t ht
                      rw [← h] at ht
                      exact CallRes.noConfusion ht
                  · rw [if_neg hn] at h
                    by_cases hl : (clipStage s raw).length = 1
                    · rw [if_pos hl] at h
                      injection h with h
                      have hql : inp.magList.length = 1 := by
                        rw [clipStage_length] at hl
                        omega
                      refine ⟨?_, ?_⟩
                      · rw [← h]
                        simp [CallRes.isQuant, hql]
                      · intro t ht
                        rw [← h] at ht
                        exact CallRes.noConfusion ht
                    · rw [if_neg hl] at h
                      injection h with h
                      have hql : ¬ inp.magList.length = 1 := by
                        rw [clipStage_length] at hl
                        omega
                      refine ⟨?_, ?_⟩
                      · rw [← h]
                        simp [CallRes.isQuant, hql, hn]
                      · intro t ht
                        rw [← h] at ht
                        injection ht with ht
                        exact ⟨raw, rfl, by rw [← ht], by rw [← ht], by rw [← ht]⟩

/-- Witness for the call-result-shape theorem: calling the concrete signal
on the two-point query [0, 1] yields a new Signal (no rank reduction, two
samples), instantiating both conjuncts. -/
theorem c8_call_result_shape_witness :
    ((CallRes.signal ⟨[0, 1], ⟨[0, 1], 0⟩, 0, none, none, none, none⟩).isQuant = true ↔
      ((CallInput.arr [0, 1]).resNdim < 1 ∨ (CallInput.arr [0, 1]).magList.length = 1)) ∧
    (∀ t, CallRes.signal ⟨[0, 1], ⟨[0, 1], 0⟩, 0, none, none, none, none⟩ = .signal t →
      ∃ raw, interpMany sigShape.domain.mag sigShape.values
          (CallInput.arr [0, 1]).magList = .ok raw ∧
        t.values = clipStage sigShape raw ∧
        t.domain = ⟨(CallInput.arr [0, 1]).magList, sigShape.domain.units⟩ ∧
        t.units = sigShape.units) :=
  c8_call_result_shape sigShape (.arr [0, 1])
    (.signal ⟨[0, 1], ⟨[0, 1], 0⟩, 0, none, none, none, none⟩)
    (by
      norm_num [SignalV.call, SignalV.resolveQuery, domainGuardLow, domainGuardHigh,
        interpMany, interp1dLin, clipStage, sigShape, npMin, npMax, CallInput.resNdim])

theorem lowerBoundary_ok (cont : List MSpec)
    (hdef : ∀ ms ∈ cont, ms.zero_boundary ≠ none ∧ ms.max_boundary ≠ none) :
    lowerBoundary cont = .ok (boundaryListLow cont) := by
  have h1 : ¬ (cont.any (fun ms => ms.zero_is_lower && ms.zero_boundary.isNone) = true) := by
    simp only [List.any_eq_true, Bool.and_eq_true, Option.isNone_iff_eq_none, not_exists]
    rintro ms ⟨hms, _, hzb⟩
    exact (hdef ms hms).1 hzb
  have h2 : ¬ (cont.any (fun ms => !ms.zero_is_lower && ms.max_boundary.isNone) = true) := by
    simp only [List.any_eq_true, Bool.and_eq_true, Option.isNone_iff_eq_none, not_exists]
    rintro ms ⟨hms, _, hmb⟩
    exact (hdef ms hms).2 hmb
  rw [lowerBoundary, if_neg h1, if_neg h2]

theorem upperBoundary_ok (cont : List MSpec)
    (hdef : ∀ ms ∈ cont, ms.zero_boundary ≠ none ∧ ms.max_boundary ≠ none) :
    upperBoundary cont = .ok (boundaryListHigh cont) := by
  have h1 : ¬ (cont.any (fun ms => !ms.zero_is_lower && ms.zero_boundary.isNone) = true) := by
    simp only [List.any_eq_true, Bool.and_eq_true, Option.isNone_iff_eq_none, not_exists]
    rintro ms ⟨hms, _, hzb⟩
    exact (hdef ms hms).1 hzb
  have h2 : ¬ (cont.any (fun ms => ms.zero_is_lower && ms.max_boundary.isNone) = true) := by
    simp only [List.any_eq_true, Bool.and_eq_true, Option.isNone_iff_eq_none, not_exists]
    rintro ms ⟨hms, _, hmb⟩
    exact (hdef ms hms).2 hmb
  rw [upperBoundary, if_neg h1, if_neg h2]

theorem withinBoundsRow_iff : ∀ (row : List ℚ) (bds : List (ℚ × ℚ)),
    row.length = bds.length →
    (withinBoundsRow bds row = true ↔
      List.Forall₂ (fun v bd => bd.1 ≤ v ∧ v ≤ bd.2) row bds) := by
  intro row
  induction row with
  | nil =>
      intro bds h
      cases bds with
      | nil => simp [withinBoundsRow]
      | cons b t => simp at h
  | cons v vt ih =>
      intro bds h
      cases bds with
      | nil => simp at h
      | cons bd bt =>
          have hrec := ih bt (by simpa using h)
          simp only [withinBoundsRow, List.zip_cons_cons, List.all_cons,
            Bool.and_eq_true, decide_eq_true_eq, List.forall₂_cons] at hrec ⊢
          rw [hrec]

/-- C1: the bounds validation in map is a hard, per-element and per-channel
precondition.  With the container bounds computed (all boundaries defined),
map on a sample-by-channel array returns the mapped-and-clipped output
exactly when the np.all check passes and raises the bounds assertion
otherwise, and that aggregate check is equivalent to every value of every
sample row lying within its own channel's achievable bounds; only inputs
passing the check reach the per-channel mappers. -/
theorem c1_map_validates_bounds (cont : List MSpec) (mappers : List (ℚ → ℚ))
    (values : MapInput) (bds : List (ℚ × ℚ))
    (hdef : ∀ ms ∈ cont, ms.zero_boundary ≠ none ∧ ms.max_boundary ≠ none)
    (hbds : containerBounds cont = .ok bds)
    (hrows : ∀ row ∈ values.atleast2d, row.length = bds.length) :
    mapModel cont mappers values false =
      (if values.atleast2d.all (withinBoundsRow bds) then
        .ok (mappedOutput cont mappers values)
       else .error .boundsAssert) ∧
    (values.atleast2d.all (withinBoundsRow bds) = true ↔
      ∀ row ∈ values.atleast2d,
        List.Forall₂ (fun v bd => bd.1 ≤ v ∧ v ≤ bd.2) row bds) := by
  constructor
  · by_cases hall : values.atleast2d.all (withinBoundsRow bds) = true
    · rw [if_pos hall]
      simp only [mapModel, hbds, lowerBoundary_ok cont hdef, upperBoundary_ok cont hdef]
      rw [if_neg (not_not_intro hall)]
      rfl
    · rw [if_neg hall]
      simp only [mapModel, hbds]
      rw [if_pos hall]
  · rw [List.all_eq_true]
    exact ⟨fun h row hr => (withinBoundsRow_iff row bds (hrows row hr)).mp (h row hr),
      fun h row hr => (withinBoundsRow_iff row bds (hrows row hr)).mpr (h row hr)⟩

/-- Witness for the map-validation theorem: one ascending channel with
achievable bounds (0, 4), the identity mapper and the in-bounds sample
value 2. -/
theorem c1_map_validates_bounds_witness :
    (∀ ms ∈ [msAsc], ms.zero_boundary ≠ none ∧ ms.max_boundary ≠ none) ∧
    containerBounds [msAsc] = .ok [((0 : ℚ), (4 : ℚ))] ∧
    (mapModel [msAsc] [fun q => q] (.two [[2]]) false =
        (if (MapInput.two [[2]]).atleast2d.all (withinBoundsRow [((0 : ℚ), (4 : ℚ))]) then
          .ok (mappedOutput [msAsc] [fun q => q] (.two [[2]]))
         else .error .boundsAssert) ∧
      ((MapInput.two [[2]]).atleast2d.all (withinBoundsRow [((0 : ℚ), (4 : ℚ))]) = true ↔
        ∀ row ∈ (MapInput.two [[2]]).atleast2d,
          List.Forall₂ (fun v bd => bd.1 ≤ v ∧ v ≤ bd.2) row [((0 : ℚ), (4 : ℚ))])) :=
  ⟨by simp [msAsc],
    by norm_num [containerBounds, msAsc, MSpec.intensity, trapz, npMin, npMax,
      List.isEmpty, min_def, max_def],
    c1_map_validates_bounds [msAsc] [fun q => q] (.two [[2]]) [((0 : ℚ), (4 : ℚ))]
      (by simp [msAsc])
      (by norm_num [containerBounds, msAsc, MSpec.intensity, trapz, npMin, npMax,
        List.isEmpty, min_def, max_def])
      (by norm_num [MapInput.atleast2d])⟩
